import Mathlib

/-!
Shallow embedding of the memory search and indexing engine implemented in
`packages/gateway/src/memory-manager.ts` (class `MemoryManager`).

The SQLite database is modelled explicitly: table `memory_chunks` (primary
key `id`, so `INSERT OR REPLACE` replaces the row with the same id) and the
FTS5 virtual table `memory_fts` (no conflict target is available for the
UNINDEXED columns, so `INSERT OR REPLACE` without a rowid always appends a
fresh row).  FTS5 `MATCH` semantics for the query strings produced by
`buildFtsQuery` (a conjunction of quoted alphanumeric tokens) are modelled
as: a row matches iff its text contains every query token, where text is
tokenized on non-word characters and compared case-insensitively.  The raw
BM25 rank that FTS5 assigns to each matching row depends on corpus
statistics internal to SQLite, so it is passed in as an explicit ranking
function `rf : FtsRow → ℚ`; SQLite documents that for actual matches this
rank is negative, with better matches more negative.  JS numbers are
modelled as ℚ (the arithmetic used here is exact), timestamps as ℤ.
-/

namespace MemoryManager

/-- JS regex class `\w`: ASCII letters, digits and underscore
(`t.replace(/[^\w]/g, "")` keeps exactly these). -/
def isWordChar (c : Char) : Bool := c.isAlphanum || c == '_'

/-- Split a character list at every whitespace character (empty segments are
kept, as with repeated separators in `query.split(/\s+/)`; they are removed
by the later non-empty filter, so the surviving segments are exactly the
maximal whitespace-free runs). -/
def splitOnWs : List Char → List (List Char)
  | [] => [[]]
  | c :: cs =>
    if c.isWhitespace then [] :: splitOnWs cs
    else
      match splitOnWs cs with
      | [] => [[c]]
      | t :: ts => (c :: t) :: ts

/-- The tokenizer of `buildFtsQuery` (memory-manager.ts:281-284): split the
query on whitespace, strip non-word characters from each piece, drop empty
pieces. -/
def tokenize (q : String) : List (List Char) :=
  ((splitOnWs q.data).map (fun t => t.filter isWordChar)).filter (fun t => !t.isEmpty)

/-- `buildFtsQuery` (memory-manager.ts:279-292): `null` when no token
survives, otherwise the AND-join of the double-quoted tokens. -/
def buildFtsQuery (q : String) : Option String :=
  match tokenize q with
  | [] => none
  | toks => some (String.intercalate " AND " (toks.map (fun t => "\"" ++ String.mk t ++ "\"")))

/-- Model of the FTS5 text tokenizer: split the stored text on non-word
characters and case-fold.  (The default unicode61 tokenizer separates on
non-alphanumeric characters and folds case; underscores are kept as token
characters here so that both sides of a match use the same alphabet as the
query tokenizer above.) -/
def textTokens (s : String) : List (List Char) :=
  ((splitOnWs (s.data.map (fun c => if isWordChar c then c else ' '))).map
      (fun t => t.map Char.toLower)).filter (fun t => !t.isEmpty)

/-- A quoted FTS5 term matches a row iff the term occurs among the row text
tokens (case-insensitively). -/
def termMatches (text : String) (t : List Char) : Bool :=
  (textTokens text).contains (t.map Char.toLower)

/-- `MATCH` against the conjunctive query built by `buildFtsQuery`: every
token must match. -/
def matchesAll (text : String) (toks : List (List Char)) : Bool :=
  toks.all (termMatches text)

/-- Well-formedness of the MATCH string assembled from a token list: the
string `"t1" AND "t2" AND ...` parses under the FTS5 query grammar exactly
when there is at least one token and every token is a non-empty run of word
characters (an empty token or a stray quote inside one would be a syntax
error that SQLite reports by throwing). -/
def ftsQueryOk (toks : List (List Char)) : Bool :=
  !toks.isEmpty && toks.all (fun t => !t.isEmpty && t.all isWordChar)

/-- `Math.abs` on ℚ. -/
def jsAbs (r : ℚ) : ℚ := if r < 0 then -r else r

/-- The rank-to-score conversion the code applies to each row
(memory-manager.ts:149): `1 / (1 + Math.abs(rank))`. -/
def codeScoreOfRank (r : ℚ) : ℚ := 1 / (1 + jsAbs r)

/-- Modelled from the spec, for comparison with `codeScoreOfRank`: the
conversion the spec states, `score = 1 / (1 + max(0, rank))` (the
conditional is `Math.max 0 r`). -/
def specScoreOfRank (r : ℚ) : ℚ := 1 / (1 + (if 0 ≤ r then r else 0))

/-- `!query || query.trim().length === 0` (memory-manager.ts:103): true iff
the string contains nothing but whitespace. -/
def trimEmpty (q : String) : Bool := q.data.all Char.isWhitespace

/-- A row of the `memory_fts` FTS5 table (columns text, id, session_key,
source; memory-manager.ts:53-60). -/
structure FtsRow where
  text : String
  id : String
  session_key : String
  source : String
deriving DecidableEq, Repr

/-- A row of the `memory_chunks` table (memory-manager.ts:38-50). -/
structure ChunkRow where
  id : String
  session_key : String
  text : String
  source : String
  timestamp : Int
  created_at : Int
deriving DecidableEq, Repr

/-- The database state: both tables. -/
structure DB where
  memory_chunks : List ChunkRow
  memory_fts : List FtsRow
deriving DecidableEq, Repr

def emptyDB : DB := ⟨[], []⟩

/-- The `MemoryChunk` interface (memory-manager.ts:13-19). -/
structure MemoryChunk where
  id : String
  sessionKey : String
  text : String
  source : String
  timestamp : Int
deriving DecidableEq, Repr

/-- The options object of `search` (memory-manager.ts:95-99).  `minScore`
is declared in the source options type but, as the search model below
shows, it is never read. -/
structure SearchOptions where
  maxResults : Option Nat := none
  minScore : Option ℚ := none
  sessionKey : Option String := none
deriving DecidableEq, Repr

/-- The `MemorySearchResult` interface (memory-manager.ts:5-11). -/
structure MemorySearchResult where
  sessionKey : String
  snippet : String
  score : ℚ
  timestamp : Int
  source : String
deriving DecidableEq, Repr

/-- `getStats()` return value (memory-manager.ts:256-273). -/
structure MemoryStats where
  totalChunks : Nat
  totalSessions : Nat
deriving DecidableEq, Repr

/-- `indexChunk` (memory-manager.ts:65-91): `INSERT OR REPLACE` into
`memory_chunks` replaces any row with the same primary-key `id`;
`INSERT OR REPLACE` into the FTS5 table has no usable conflict target
(the id column is UNINDEXED and no rowid is supplied), so it appends a new
row unconditionally.  `now` stands for `Date.now()`. -/
def indexChunk (db : DB) (chunk : MemoryChunk) (now : Int) : DB :=
  { memory_chunks :=
      (db.memory_chunks.filter (fun c => !(c.id == chunk.id))) ++
        [⟨chunk.id, chunk.sessionKey, chunk.text, chunk.source, chunk.timestamp, now⟩],
    memory_fts :=
      db.memory_fts ++ [⟨chunk.text, chunk.id, chunk.sessionKey, chunk.source⟩] }

/-- `getStats` (memory-manager.ts:256-273): `COUNT(*)` over `memory_chunks`
and `COUNT(DISTINCT session_key)`. -/
def getStats (db : DB) : MemoryStats :=
  ⟨db.memory_chunks.length, (db.memory_chunks.map (fun c => c.session_key)).dedup.length⟩

/-- The row filter of the search SQL (memory-manager.ts:117-144): the MATCH
predicate, plus `f.session_key = ?` exactly when the JS truthiness test
`options?.sessionKey` passes (a `some ""` sessionKey is falsy and applies no
filter). -/
def sessionFilter (opts : SearchOptions) (f : FtsRow) : Bool :=
  match opts.sessionKey with
  | some s => if !(s == "") then f.session_key == s else true
  | none => true

/-- Stable insertion into a list sorted ascending by `rk`: the new element
goes after every element whose key is ≤ its own (SQLite `ORDER BY f.rank`,
modelled as a stable ascending sort). -/
def insertRanked (rk : α → ℚ) (a : α) : List α → List α
  | [] => [a]
  | b :: bs => if rk b ≤ rk a then b :: insertRanked rk a bs else a :: b :: bs

/-- Stable ascending sort by `rk`. -/
def sortRanked (rk : α → ℚ) (l : List α) : List α :=
  l.foldl (fun acc a => insertRanked rk a acc) []

/-- The SQL of `search` (memory-manager.ts:114-152): filter `memory_fts`
by MATCH and the session condition, inner-join `memory_chunks` on id (ids
are unique in `memory_chunks` by primary key, so `find?` is the join),
`ORDER BY f.rank` (ascending, `rf` is the BM25 rank FTS5 assigns to each
row), `LIMIT maxResults` (default 10, memory-manager.ts:107), then map
rows to results with `score = 1 / (1 + Math.abs(rank))`.  `minScore` is
never consulted, faithfully to the source. -/
def sqlRows (db : DB) (rf : FtsRow → ℚ) (toks : List (List Char)) (opts : SearchOptions)
    (maxResults : Nat) : List MemorySearchResult :=
  ((sortRanked (fun x => rf x.1)
      ((db.memory_fts.filter (fun f => matchesAll f.text toks && sessionFilter opts f)).filterMap
        (fun f =>
          (db.memory_chunks.find? (fun c => c.id == f.id)).map (fun c => (f, c.timestamp))))).take
    maxResults).map (fun x => ⟨x.1.session_key, x.1.text, codeScoreOfRank (rf x.1), x.2, x.1.source⟩)

/-- `search` up to the `try`/`catch`: the early returns for empty and
whitespace-only queries and for a `null` fts query, then the SQL of
`sqlRows`; an `Except.error` models the exception SQLite throws on a
malformed MATCH string. -/
def searchE (db : DB) (rf : FtsRow → ℚ) (query : String) (opts : SearchOptions) :
    Except String (List MemorySearchResult) :=
  if trimEmpty query then .ok []
  else
    match buildFtsQuery query with
    | none => .ok []
    | some _ =>
      if ftsQueryOk (tokenize query) then
        .ok (sqlRows db rf (tokenize query) opts (opts.maxResults.getD 10))
      else .error "fts5: syntax error in MATCH expression"

/-- `search` (memory-manager.ts:93-157): the `catch` turns any SQL error
into `[]`. -/
def search (db : DB) (rf : FtsRow → ℚ) (query : String) (opts : SearchOptions) :
    List MemorySearchResult :=
  match searchE db rf query opts with
  | .ok l => l
  | .error _ => []

/-- The `message` payload of a transcript event (memory-manager.ts:169-173). -/
structure MsgBody where
  role : String
  content : String
deriving DecidableEq, Repr

/-- One parsed JSONL transcript event.  `timestamp` is the already-parsed
epoch-millisecond value of the ISO timestamp string (absent when the event
has none); `sessionKey` is the optional header field. -/
structure TranscriptEvent where
  type : String
  timestamp : Option Int := none
  message : Option MsgBody := none
  sessionKey : Option String := none
deriving DecidableEq, Repr

/-- The message filter of `indexSession` (memory-manager.ts:191-193):
events of type `"message"` whose `message.content` is truthy (non-empty),
each together with its event timestamp. -/
def messagesOf (events : List TranscriptEvent) : List (MsgBody × Option Int) :=
  events.filterMap (fun e =>
    if e.type == "message" then
      match e.message with
      | some m => if m.content.isEmpty then none else some (m, e.timestamp)
      | none => none
    else none)

/-- Session-key extraction (memory-manager.ts:183-188): the first event of
type `"session"` that carries a `sessionKey` field overrides `sessionId`. -/
def sessionKeyOf (sessionId : String) (events : List TranscriptEvent) : String :=
  match events.find? (fun e => e.type == "session") with
  | some h => h.sessionKey.getD sessionId
  | none => sessionId

/-- The pairing loop of `indexSession` (memory-manager.ts:195-237): a user
message immediately followed by an assistant message becomes one chunk
`"User: <u>\nAssistant: <a>"` stamped with the user timestamp (or `now`,
standing for `Date.now()`, when absent); a user message not immediately
followed by an assistant one, or an assistant message reached on its own,
becomes its own chunk; any other role is skipped. -/
def pairChunks (now : Int) : List (MsgBody × Option Int) → List (String × Int)
  | [] => []
  | [(m, t)] =>
    if m.role == "user" then [("User: " ++ m.content, t.getD now)]
    else if m.role == "assistant" then [("Assistant: " ++ m.content, t.getD now)]
    else []
  | (m, t) :: rest@((m2, _) :: rest2) =>
    if m.role == "user" then
      if m2.role == "assistant" then
        ("User: " ++ m.content ++ "\nAssistant: " ++ m2.content, t.getD now) ::
          pairChunks now rest2
      else
        ("User: " ++ m.content, t.getD now) :: pairChunks now rest
    else if m.role == "assistant" then
      ("Assistant: " ++ m.content, t.getD now) :: pairChunks now rest
    else
      pairChunks now rest

/-- `indexSession` (memory-manager.ts:159-254).  The file system is passed
as the transcript content: `none` models a path for which `existsSync` is
false (the function returns with no effect), `some events` the parsed JSONL
lines (JSON parsing of the lines is outside the model).  `hash16` stands
for the first 16 hex characters of the SHA-256 of its argument, which the
code uses as chunk id; `toString` of the timestamp stands for JS number to
string coercion inside that hash input. -/
def indexSession (db : DB) (sessionId : String) (file : Option (List TranscriptEvent))
    (now : Int) (hash16 : String → String) : DB :=
  match file with
  | none => db
  | some events =>
    let sessionKey := sessionKeyOf sessionId events
    let chunks := pairChunks now (messagesOf events)
    chunks.foldl (fun d c =>
      indexChunk d ⟨hash16 (c.1 ++ sessionKey ++ toString c.2), sessionKey, c.1, "session", c.2⟩ now) db

end MemoryManager

/-! ## Helper lemmas -/

namespace MemoryManager

theorem mem_insertRanked {α : Type} {rk : α → ℚ} {a b : α} {l : List α} :
    b ∈ insertRanked rk a l ↔ b = a ∨ b ∈ l := by
  induction l with
  | nil => simp [insertRanked]
  | cons c cs ih =>
    simp only [insertRanked]
    split
    · simp only [List.mem_cons, ih]
      tauto
    · simp only [List.mem_cons]

theorem mem_foldl_insertRanked {α : Type} {rk : α → ℚ} {b : α} (l : List α) :
    ∀ acc : List α,
      (b ∈ l.foldl (fun acc a => insertRanked rk a acc) acc ↔ b ∈ acc ∨ b ∈ l) := by
  induction l with
  | nil => intro acc; simp
  | cons c cs ih =>
    intro acc
    rw [List.foldl_cons, ih, mem_insertRanked]
    simp only [List.mem_cons]
    tauto

theorem mem_sortRanked {α : Type} {rk : α → ℚ} {b : α} {l : List α} :
    b ∈ sortRanked rk l ↔ b ∈ l := by
  unfold sortRanked
  rw [mem_foldl_insertRanked]
  simp

theorem tokenize_mem_wf {q : String} {t : List Char} (h : t ∈ tokenize q) :
    t.isEmpty = false ∧ t.all isWordChar = true := by
  unfold tokenize at h
  obtain ⟨ht, hne⟩ := List.mem_filter.1 h
  obtain ⟨t', _, rfl⟩ := List.mem_map.1 ht
  refine ⟨by simpa using hne, ?_⟩
  rw [List.all_eq_true]
  intro c hc
  exact (List.mem_filter.1 hc).2

theorem ftsQueryOk_tokenize {q : String} (h : tokenize q ≠ []) :
    ftsQueryOk (tokenize q) = true := by
  unfold ftsQueryOk
  rw [Bool.and_eq_true]
  refine ⟨by simpa using h, ?_⟩
  rw [List.all_eq_true]
  intro t ht
  obtain ⟨h1, h2⟩ := tokenize_mem_wf ht
  simp [h1, h2]

theorem buildFtsQuery_eq_none {q : String} : buildFtsQuery q = none ↔ tokenize q = [] := by
  unfold buildFtsQuery
  cases h : tokenize q <;> simp

/-- The fallible pipeline never actually errors: every MATCH string the
code builds is well-formed, because `buildFtsQuery` keeps only non-empty
runs of word characters. -/
theorem searchE_isOk (db : DB) (rf : FtsRow → ℚ) (q : String) (opts : SearchOptions) :
    ∃ l, searchE db rf q opts = .ok l := by
  unfold searchE
  split
  · exact ⟨[], rfl⟩
  · cases hb : buildFtsQuery q with
    | none => exact ⟨[], rfl⟩
    | some s =>
      have hne : tokenize q ≠ [] := by
        intro h0
        rw [buildFtsQuery_eq_none.2 h0] at hb
        cases hb
      rw [ftsQueryOk_tokenize hne]
      exact ⟨_, rfl⟩

theorem search_eq_searchE (db : DB) (rf : FtsRow → ℚ) (q : String) (opts : SearchOptions) :
    ∃ l, searchE db rf q opts = .ok l ∧ search db rf q opts = l := by
  obtain ⟨l, hl⟩ := searchE_isOk db rf q opts
  exact ⟨l, hl, by unfold search; rw [hl]⟩

theorem mem_sqlRows {db : DB} {rf : FtsRow → ℚ} {toks : List (List Char)}
    {opts : SearchOptions} {mr : Nat} {res : MemorySearchResult}
    (h : res ∈ sqlRows db rf toks opts mr) :
    ∃ f, f ∈ db.memory_fts ∧ matchesAll f.text toks = true ∧ sessionFilter opts f = true ∧
      res.sessionKey = f.session_key ∧ res.snippet = f.text ∧
      res.score = codeScoreOfRank (rf f) ∧ res.source = f.source := by
  unfold sqlRows at h
  obtain ⟨x, hx, rfl⟩ := List.mem_map.1 h
  have hx' := List.take_subset _ _ hx
  rw [mem_sortRanked] at hx'
  obtain ⟨f, hf, hmap⟩ := List.mem_filterMap.1 hx'
  obtain ⟨hfm, hpred⟩ := List.mem_filter.1 hf
  rw [Bool.and_eq_true] at hpred
  obtain ⟨c, _, hxc⟩ := Option.map_eq_some'.1 hmap
  subst hxc
  exact ⟨f, hfm, hpred.1, hpred.2, rfl, rfl, rfl, rfl⟩

theorem mem_search {db : DB} {rf : FtsRow → ℚ} {q : String} {opts : SearchOptions}
    {res : MemorySearchResult} (h : res ∈ search db rf q opts) :
    ∃ f, f ∈ db.memory_fts ∧ matchesAll f.text (tokenize q) = true ∧
      sessionFilter opts f = true ∧ res.sessionKey = f.session_key ∧
      res.snippet = f.text ∧ res.score = codeScoreOfRank (rf f) ∧ res.source = f.source := by
  obtain ⟨l, hok, hs⟩ := search_eq_searchE db rf q opts
  rw [hs] at h
  unfold searchE at hok
  split at hok
  · cases hok; cases h
  · split at hok
    · cases hok; cases h
    · split at hok
      · cases hok
        exact mem_sqlRows h
      · cases hok

theorem length_sqlRows (db : DB) (rf : FtsRow → ℚ) (toks : List (List Char))
    (opts : SearchOptions) (mr : Nat) : (sqlRows db rf toks opts mr).length ≤ mr := by
  unfold sqlRows
  rw [List.length_map]
  exact List.length_take_le _ _

theorem jsAbs_nonneg (r : ℚ) : 0 ≤ jsAbs r := by
  unfold jsAbs
  split <;> linarith

theorem foldl_indexChunk_fts (chs : List (String × Int)) (sk : String)
    (h16 : String → String) (now : Int) :
    ∀ db : DB,
      (chs.foldl (fun d c =>
        indexChunk d ⟨h16 (c.1 ++ sk ++ toString c.2), sk, c.1, "session", c.2⟩ now) db).memory_fts
      = db.memory_fts ++
          chs.map (fun c => ⟨c.1, h16 (c.1 ++ sk ++ toString c.2), sk, "session"⟩) := by
  induction chs with
  | nil => intro db; simp
  | cons c cs ih =>
    intro db
    rw [List.foldl_cons, List.map_cons, ih]
    simp [indexChunk]

end MemoryManager

/-! ## Claims

Concrete ranking functions below stand for the BM25 rank FTS5 computes for
each matching row; SQLite documents these ranks as negative, with better
matches more negative, which is how the concrete values are chosen. -/

namespace MemoryManager

def c1db : DB := indexChunk emptyDB ⟨"c1", "s1", "docker deploy", "session", 1000⟩ 0

def c1rf : FtsRow → ℚ := fun _ => -3

/-- C1: the claim says every result of `search` has `score ≥ minScore`,
with `minScore` defaulting to 0.35.  The code declares the `minScore`
option but never reads it: with a hit of BM25 rank −3 (score 1/4), the
default search returns the result although 1/4 < 0.35 = 7/20, and a search
with `minScore = 0.9` supplied returns it unchanged although 1/4 < 0.9. -/
theorem c1_minScore_never_applied :
    ((search c1db c1rf "docker" {}).map (fun r => r.score) = [1/4] ∧ (1/4 : ℚ) < 7/20) ∧
    ((search c1db c1rf "docker" { minScore := some (9/10) }).map (fun r => r.score) = [1/4] ∧
      (1/4 : ℚ) < 9/10) := by
  have h1 : search c1db c1rf "docker" {} =
      [⟨"s1", "docker deploy", codeScoreOfRank (-3), 1000, "session"⟩] := rfl
  have h2 : search c1db c1rf "docker" { minScore := some (9/10) } =
      [⟨"s1", "docker deploy", codeScoreOfRank (-3), 1000, "session"⟩] := rfl
  have hsc : codeScoreOfRank (-3) = 1/4 := by
    unfold codeScoreOfRank jsAbs
    norm_num
  refine ⟨⟨?_, by norm_num⟩, ?_, by norm_num⟩
  · rw [h1, List.map_cons, List.map_nil, hsc]
  · rw [h2, List.map_cons, List.map_nil, hsc]

def c2db : DB := indexChunk emptyDB ⟨"c2", "s1", "docker deploy", "session", 1000⟩ 0

def c2rf : FtsRow → ℚ := fun _ => -1

/-- C2 counterexample: the claim says the score of a hit with raw rank r is
`1 / (1 + max(0, r))`.  At the realistic BM25 rank −1 the code returns
score 1/2 (it computes `1 / (1 + |r|)`), while the claimed formula gives 1;
moreover the code conversion is not monotonically non-increasing in r:
from r = −2 to r = −1 the score rises from 1/3 to 1/2. -/
theorem c2_counterexample :
    (search c2db c2rf "docker" {}).map (fun r => r.score) = [1/2] ∧
    specScoreOfRank (-1) = 1 ∧ ((1 : ℚ)/2 ≠ 1) ∧
    ((-2 : ℚ) < -1 ∧ codeScoreOfRank (-2) < codeScoreOfRank (-1)) := by
  have h1 : search c2db c2rf "docker" {} =
      [⟨"s1", "docker deploy", codeScoreOfRank (-1), 1000, "session"⟩] := rfl
  have hsc : codeScoreOfRank (-1) = 1/2 := by
    unfold codeScoreOfRank jsAbs
    norm_num
  refine ⟨?_, ?_, by norm_num, by norm_num, ?_⟩
  · rw [h1, List.map_cons, List.map_nil, hsc]
  · unfold specScoreOfRank
    norm_num
  · unfold codeScoreOfRank jsAbs
    norm_num

/-- C2 amended: every result score is `1 / (1 + |rank|)` of the raw rank of
its row (`codeScoreOfRank`); this conversion is monotonically non-increasing
in `|rank|`, always lies in (0, 1], and maps rank 0 to exactly 1. -/
theorem c2_amended :
    (∀ db rf q opts res, res ∈ search db rf q opts →
      ∃ f, f ∈ db.memory_fts ∧ res.score = codeScoreOfRank (rf f)) ∧
    (∀ r : ℚ, 0 < codeScoreOfRank r ∧ codeScoreOfRank r ≤ 1) ∧
    codeScoreOfRank 0 = 1 ∧
    (∀ r s : ℚ, jsAbs r ≤ jsAbs s → codeScoreOfRank s ≤ codeScoreOfRank r) := by
  have hpos : ∀ r : ℚ, 0 < 1 + jsAbs r := fun r => by
    have := jsAbs_nonneg r
    linarith
  refine ⟨?_, ?_, ?_, ?_⟩
  · intro db rf q opts res h
    obtain ⟨f, hf, _, _, _, _, hscore, _⟩ := mem_search h
    exact ⟨f, hf, hscore⟩
  · intro r
    unfold codeScoreOfRank
    constructor
    · exact div_pos one_pos (hpos r)
    · rw [div_le_one (hpos r)]
      have := jsAbs_nonneg r
      linarith
  · unfold codeScoreOfRank jsAbs
    norm_num
  · intro r s h
    unfold codeScoreOfRank
    exact one_div_le_one_div_of_le (hpos r) (by linarith)

/-- C2 amended, witness at a concrete run. -/
theorem c2_amended_witness :
    (∃ f, f ∈ c2db.memory_fts ∧
      (⟨"s1", "docker deploy", codeScoreOfRank (-1), 1000, "session"⟩ :
        MemorySearchResult).score = codeScoreOfRank (c2rf f)) ∧
    jsAbs (0 : ℚ) ≤ jsAbs (-1 : ℚ) ∧ codeScoreOfRank (-1) ≤ codeScoreOfRank 0 := by
  have habs : jsAbs (0 : ℚ) ≤ jsAbs (-1 : ℚ) := by
    unfold jsAbs
    norm_num
  refine ⟨c2_amended.1 c2db c2rf "docker" {} _ ?_, habs, c2_amended.2.2.2 0 (-1) habs⟩
  rw [show search c2db c2rf "docker" {} =
    [⟨"s1", "docker deploy", codeScoreOfRank (-1), 1000, "session"⟩] from rfl]
  exact List.mem_singleton_self _

def c3db : DB :=
  indexChunk (indexChunk emptyDB ⟨"a", "s", "docker swarm", "session", 1⟩ 0)
    ⟨"b", "s", "docker compose", "session", 2⟩ 0

/-- BM25 ranks: row `a` is the better lexical match (−2 beats −1). -/
def c3rf : FtsRow → ℚ := fun f => if f.id == "a" then -2 else -1

/-- C3: the claim says the result list is sorted in descending order of
score.  The SQL orders by raw FTS rank ascending, and with the negative
BM25 ranks FTS5 produces, `score = 1/(1 + |rank|)` inverts that order: the
better match (rank −2) is returned first with the strictly smaller score,
so the list comes back ascending, not descending, in score. -/
theorem c3_results_ascending_by_score :
    (search c3db c3rf "docker" {}).map (fun r => r.score) = [1/3, 1/2] ∧
    ((1 : ℚ)/3 < 1/2) := by
  have h : search c3db c3rf "docker" {} =
      [⟨"s", "docker swarm", codeScoreOfRank (-2), 1, "session"⟩,
       ⟨"s", "docker compose", codeScoreOfRank (-1), 2, "session"⟩] := rfl
  have h2 : codeScoreOfRank (-2) = 1/3 := by
    unfold codeScoreOfRank jsAbs
    norm_num
  have h1 : codeScoreOfRank (-1) = 1/2 := by
    unfold codeScoreOfRank jsAbs
    norm_num
  rw [h, List.map_cons, List.map_cons, List.map_nil, h1, h2]
  exact ⟨rfl, by norm_num⟩

def c4db : DB :=
  indexChunk (indexChunk (indexChunk (indexChunk (indexChunk (indexChunk (indexChunk emptyDB
    ⟨"d1", "s", "docker a", "session", 1⟩ 0)
    ⟨"d2", "s", "docker b", "session", 2⟩ 0)
    ⟨"d3", "s", "docker c", "session", 3⟩ 0)
    ⟨"d4", "s", "docker d", "session", 4⟩ 0)
    ⟨"d5", "s", "docker e", "session", 5⟩ 0)
    ⟨"d6", "s", "docker f", "session", 6⟩ 0)
    ⟨"d7", "s", "docker g", "session", 7⟩ 0

def c4rf : FtsRow → ℚ := fun _ => -1

/-- C4 counterexample: the claim says `maxResults` defaults to 6, so an
unparameterized search never returns more than 6 results; with 7 matching
chunks the unparameterized search returns all 7. -/
theorem c4_counterexample :
    (search c4db c4rf "docker" {}).length = 7 ∧ ¬((7 : Nat) ≤ 6) :=
  ⟨rfl, by decide⟩

/-- C4 amended: `search` returns at most `maxResults` results, and the
default when the option is not supplied is 10 (memory-manager.ts:107), so
an unparameterized search never returns more than 10 results. -/
theorem c4_amended (db : DB) (rf : FtsRow → ℚ) (q : String) (opts : SearchOptions) :
    (search db rf q opts).length ≤ opts.maxResults.getD 10 := by
  obtain ⟨l, hok, hs⟩ := search_eq_searchE db rf q opts
  rw [hs]
  unfold searchE at hok
  split at hok
  · cases hok
    simp
  · split at hok
    · cases hok
      simp
    · split at hok
      · cases hok
        exact length_sqlRows ..
      · cases hok

def c5db : DB :=
  indexChunk (indexChunk emptyDB
    ⟨"dedup1", "test:user", "original text about JavaScript", "session", 1000⟩ 0)
    ⟨"dedup1", "test:user", "updated text about TypeScript", "session", 2000⟩ 0

def c5rf : FtsRow → ℚ := fun _ => -1

/-- C5: after re-indexing id `dedup1` with new text, `getStats` does count
the id once, but the FTS5 table still holds the stale row (the
`INSERT OR REPLACE` has no conflict target there), so searching for the old
text returns the old snippet — joined, via the id, to the timestamp of the
new chunk row. -/
theorem c5_stale_fts_text_returned :
    getStats c5db = ⟨1, 1⟩ ∧
    c5db.memory_fts.length = 2 ∧
    (search c5db c5rf "JavaScript" {}).map (fun r => r.snippet) =
      ["original text about JavaScript"] ∧
    (search c5db c5rf "JavaScript" {}).map (fun r => r.timestamp) = [2000] :=
  ⟨by decide, by decide, rfl, rfl⟩

end MemoryManager

namespace MemoryManager

/-- C6: `search` never propagates an error for any input string: the
fallible pipeline always returns `.ok` (every MATCH expression that
`buildFtsQuery` assembles out of the sanitized tokens is syntactically
well-formed, and the `catch` would turn an error into `[]` anyway), and any
empty or whitespace-only query yields `[]`. -/
theorem c6_search_never_errors (db : DB) (rf : FtsRow → ℚ) (opts : SearchOptions)
    (q : String) :
    (∃ l, searchE db rf q opts = .ok l ∧ search db rf q opts = l) ∧
    (trimEmpty q = true → search db rf q opts = []) := by
  refine ⟨search_eq_searchE db rf q opts, fun h => ?_⟩
  simp [search, searchE, h]

/-- C6 witness: the whitespace-only query on a concrete store. -/
theorem c6_witness :
    ((∃ l, searchE c1db c1rf "   " {} = .ok l ∧ search c1db c1rf "   " {} = l) ∧
      (trimEmpty "   " = true → search c1db c1rf "   " {} = [])) ∧
    search c1db c1rf "   " {} = [] := by
  have h := c6_search_never_errors c1db c1rf {} "   "
  exact ⟨h, h.2 (by decide)⟩

/-- C7: every result of `search` matches every token of the query (the
tokens are AND-combined): a chunk matching only a strict subset of the
tokens is never returned. -/
theorem c7_conjunctive_match (db : DB) (rf : FtsRow → ℚ) (q : String)
    (opts : SearchOptions) (res : MemorySearchResult) (h : res ∈ search db rf q opts) :
    ∀ t ∈ tokenize q, termMatches res.snippet t = true := by
  obtain ⟨f, _, hmatch, _, _, hsnip, _, _⟩ := mem_search h
  rw [hsnip]
  unfold matchesAll at hmatch
  exact fun t ht => List.all_eq_true.1 hmatch t ht

def c7db : DB := indexChunk emptyDB ⟨"both", "t", "Python Django framework", "session", 1⟩ 0

def c7rf : FtsRow → ℚ := fun _ => -1

/-- C7 witness: the only result of `search "Python Django"` matches the
token `Django`. -/
theorem c7_witness : termMatches "Python Django framework" ("Django".data) = true :=
  c7_conjunctive_match c7db c7rf "Python Django" {}
    ⟨"t", "Python Django framework", codeScoreOfRank (-1), 1, "session"⟩
    (by
      rw [show search c7db c7rf "Python Django" {} =
        [⟨"t", "Python Django framework", codeScoreOfRank (-1), 1, "session"⟩] from rfl]
      exact List.mem_singleton_self _)
    ("Django".data) (by decide)

/-- C8: the pairing loop of `indexSession` turns a user message immediately
followed by an assistant message into the single chunk
`"User: <u>\nAssistant: <a>"`; a user message not immediately followed by
an assistant one becomes its own `"User: <u>"` chunk, an assistant message
reached on its own becomes its own `"Assistant: <a>"` chunk; and
`indexSession` appends to the FTS table exactly one row per such chunk, in
order. -/
theorem c8_user_assistant_pairing :
    (∀ (now : Int) (u a : MsgBody) (tu ta : Option Int) rest, u.role = "user" →
      a.role = "assistant" →
      pairChunks now ((u, tu) :: (a, ta) :: rest) =
        ("User: " ++ u.content ++ "\nAssistant: " ++ a.content, tu.getD now) ::
          pairChunks now rest) ∧
    (∀ (now : Int) (u : MsgBody) (tu : Option Int) rest, u.role = "user" →
      rest.head?.map (fun p => p.1.role) ≠ some "assistant" →
      pairChunks now ((u, tu) :: rest) =
        ("User: " ++ u.content, tu.getD now) :: pairChunks now rest) ∧
    (∀ (now : Int) (a : MsgBody) (ta : Option Int) rest, a.role = "assistant" →
      pairChunks now ((a, ta) :: rest) =
        ("Assistant: " ++ a.content, ta.getD now) :: pairChunks now rest) ∧
    (∀ (db : DB) (sid : String) (evs : List TranscriptEvent) (now : Int)
        (h16 : String → String),
      (indexSession db sid (some evs) now h16).memory_fts =
        db.memory_fts ++ (pairChunks now (messagesOf evs)).map
          (fun c => ⟨c.1, h16 (c.1 ++ sessionKeyOf sid evs ++ toString c.2),
            sessionKeyOf sid evs, "session"⟩)) := by
  refine ⟨?_, ?_, ?_, ?_⟩
  · intro now u a tu ta rest hu ha
    simp [pairChunks, hu, ha]
  · intro now u tu rest hu hrest
    cases rest with
    | nil => simp [pairChunks, hu]
    | cons p rest2 =>
      obtain ⟨m2, t2⟩ := p
      have hm2 : ¬(m2.role == "assistant") = true := by
        simp only [List.head?_cons, Option.map_some'] at hrest
        simpa using hrest
      simp [pairChunks, hu, hm2]
  · intro now a ta rest ha
    cases rest with
    | nil => simp [pairChunks, ha]
    | cons p rest2 =>
      obtain ⟨m2, t2⟩ := p
      simp [pairChunks, ha]
  · intro db sid evs now h16
    simp only [indexSession]
    exact foldl_indexChunk_fts _ _ _ _ db

/-- C8 witness: a concrete user/assistant pair. -/
theorem c8_witness :
    pairChunks 0
      [(⟨"user", "What is Rust?"⟩, some 2000),
       (⟨"assistant", "Rust is a systems programming language."⟩, some 3000)] =
      [("User: What is Rust?\nAssistant: Rust is a systems programming language.", 2000)] := by
  rw [c8_user_assistant_pairing.1 0 ⟨"user", "What is Rust?"⟩
    ⟨"assistant", "Rust is a systems programming language."⟩ (some 2000) (some 3000) [] rfl rfl]
  simp [pairChunks]

def c9db : DB := indexChunk emptyDB ⟨"c1", "telegram:user1", "docker deploy", "session", 1000⟩ 0

def c9rf : FtsRow → ℚ := fun _ => -1

/-- C9 counterexample: the claim says that whenever the `sessionKey` option
is supplied, every result has exactly that session key.  Supplying the
empty string is a supplied value, but the code guards the filter with a JS
truthiness test, so the filter is skipped and a chunk of a different
session is returned. -/
theorem c9_counterexample :
    (search c9db c9rf "docker" { sessionKey := some "" }).map (fun r => r.sessionKey) =
      ["telegram:user1"] ∧ ("telegram:user1" : String) ≠ "" :=
  ⟨rfl, by decide⟩

/-- C9 amended: when a NON-EMPTY `sessionKey` is supplied, every result has
exactly that session key. -/
theorem c9_amended (db : DB) (rf : FtsRow → ℚ) (q : String) (opts : SearchOptions)
    (s : String) (res : MemorySearchResult) (h1 : opts.sessionKey = some s) (h2 : s ≠ "")
    (h : res ∈ search db rf q opts) : res.sessionKey = s := by
  obtain ⟨f, _, _, hsess, hsk, _, _, _⟩ := mem_search h
  rw [hsk]
  have hs : (s == "") = false := beq_eq_false_iff_ne.2 h2
  unfold sessionFilter at hsess
  rw [h1] at hsess
  simp [hs] at hsess
  exact hsess

/-- C9 amended, witness at a concrete run. -/
theorem c9_amended_witness :
    (⟨"telegram:user1", "docker deploy", codeScoreOfRank (-1), 1000, "session"⟩ :
      MemorySearchResult).sessionKey = "telegram:user1" :=
  c9_amended c9db c9rf "docker" { sessionKey := some "telegram:user1" } "telegram:user1" _
    rfl (by decide)
    (by
      rw [show search c9db c9rf "docker" { sessionKey := some "telegram:user1" } =
        [⟨"telegram:user1", "docker deploy", codeScoreOfRank (-1), 1000, "session"⟩] from rfl]
      exact List.mem_singleton_self _)

/-- C10: `indexSession` on a transcript path that does not exist
(`existsSync` false, modelled as `none` content) returns with the store
unchanged, so `getStats` is unchanged too. -/
theorem c10_missing_transcript_noop (db : DB) (sid : String) (now : Int)
    (h16 : String → String) :
    indexSession db sid none now h16 = db ∧
    getStats (indexSession db sid none now h16) = getStats db :=
  ⟨rfl, rfl⟩

end MemoryManager
